import Mathlib

/-!
# Verification of the codecli embedding index (`internal/vector`)

A shallow embedding of the core of the `codecli` repository: the chunker
(`splitIntoChunks`), the cosine-similarity scorer (`cosineSimilarity`), the
in-memory vector store (`VectorStore`, `processFile`), persistence
(`saveIndex` / `LoadIndex`) and ranked search (`Search`), together with the
caller-level wrappers (`tools.SearchCodebase`, `File.searchFiles`).

Modelling conventions:
* Text is `List Char`; a line is the segment between `'\n'` separators,
  exactly as produced by Go's `strings.Split(content, "\n")`.
* Go `float32`/`float64` arithmetic is modelled over `ℝ` (exact reals);
  "within floating-point tolerance" statements become exact equalities.
* Go `uint32` identifiers are modelled as `Nat`; the `nextID++` counter in
  the source would wrap only after 2^32 allocations, which is outside the
  modelled behaviour.
* Go maps (`map[uint32]*T`) are association lists carrying an explicit
  enumeration order, because Go's map iteration order is unspecified and
  `VectorStore.Search` iterates over such a map.
-/

namespace Codecli

/-! ## Lines and blankness -/

/-- A single line of text. -/
abbrev Line := List Char

/-- Go `strings.Split(content, "\n")`: cut the character sequence at every
newline.  The result is never empty; an empty input yields one empty line. -/
def splitLines : List Char → List Line
  | [] => [[]]
  | c :: cs =>
    if c = '\n' then [] :: splitLines cs
    else
      match splitLines cs with
      | [] => [[c]]
      | r :: rs => (c :: r) :: rs

/-- Go `unicode.IsSpace`: the Unicode White_Space property.  The Latin-1
fast path (`'\t'`, `'\n'`, vertical tab, form feed, `'\r'`, space, next line
U+0085, no-break space U+00A0) plus the `unicode.White_Space` table:
U+1680, U+2000–U+200A, U+2028, U+2029, U+202F, U+205F, U+3000. -/
def goIsSpace (c : Char) : Bool :=
  c = ' ' || c = '\t' || c = '\n' || c = '\x0B' || c = '\x0C' || c = '\r' ||
    c = '\x85' || c = '\xA0' || c = '\u1680' ||
    ('\u2000' ≤ c && c ≤ '\u200A') ||
    c = '\u2028' || c = '\u2029' || c = '\u202F' || c = '\u205F' || c = '\u3000'

/-- The test `strings.TrimSpace(s) == ""`: a string trims to empty exactly
when every character is white space. -/
def trimIsEmpty (s : List Char) : Bool := s.all goIsSpace

/-- Go `strings.Join(lines, "\n")`. -/
def joinNl (ls : List Line) : List Char := List.intercalate ['\n'] ls

/-! ## Data model (`internal/vector`, unnamed part_003) -/

/-- `ChunkMetadata`: `{ID uint32, StartLine int, EndLine int, Content string}`. -/
structure ChunkMetadata where
  id : Nat
  startLine : Nat
  endLine : Nat
  content : List Char
deriving DecidableEq, Repr

/-- `FileMetadata`: `{ID uint32, FilePath string, Content string, Chunks []ChunkMetadata}`. -/
structure FileMetadata where
  id : Nat
  filePath : String
  content : List Char
  chunks : List ChunkMetadata
deriving DecidableEq, Repr

/-- `ChunkVector`: a `ChunkMetadata` together with its embedding vector
(`[]float32`, modelled over `ℝ`). -/
structure ChunkVector where
  meta : ChunkMetadata
  vector : List ℝ

/-- `VectorStore`: `metadata map[uint32]*FileMetadata`,
`vectors map[uint32]*ChunkVector`, `nextID uint32`.  The two maps are
association lists in their (unspecified) Go iteration order. -/
structure VectorStore where
  metadata : List (Nat × FileMetadata)
  vectors : List (Nat × ChunkVector)
  nextID : Nat

/-- `NewVectorStore()`: empty maps, `nextID = 1`. -/
def freshStore : VectorStore := { metadata := [], vectors := [], nextID := 1 }

/-- `types.SearchResult`: `{Path string, Line int, Content string, Distance float64}`
(part_003's `Search` stores the chunk's `StartLine` in `Line` and its cosine
score in `Distance`). -/
structure SearchResult where
  path : String
  line : Nat
  content : List Char
  distance : ℝ

/-! ## Chunker (`VectorStore.splitIntoChunks`) -/

/-- The Go slice `lines[i:endIdx]`. -/
def window (lines : List Line) (i endIdx : Nat) : List Line :=
  (lines.drop i).take (endIdx - i)

/-- The loop of `splitIntoChunks`: window size 50, overlap 5, step 45.
For each start `i` (0-based) the window is `lines[i:min(i+50, len)]`; it is
emitted (with `ID` left at its zero value, exactly as in the source) only if
its joined text is non-blank, and the loop breaks once the window end reaches
`len(lines)`.  The Go `for` loop terminates because `i` grows by 45 while
bounded by `len(lines)`; the structural `fuel` argument carries that bound
(any `fuel ≥ len(lines) - i` gives the loop's behaviour, and callers pass
`len(lines)`), keeping the function kernel-computable. -/
def chunkLoop (lines : List Line) : Nat → Nat → List ChunkMetadata
  | 0, _ => []
  | fuel + 1, i =>
    if i < lines.length then
      let endIdx := min (i + 50) lines.length
      let chunkContent := joinNl (window lines i endIdx)
      let emitted : List ChunkMetadata :=
        if trimIsEmpty chunkContent then []
        else [{ id := 0, startLine := i + 1, endLine := endIdx, content := chunkContent }]
      if lines.length ≤ endIdx then emitted
      else emitted ++ chunkLoop lines fuel (i + 45)
    else []

/-- `VectorStore.splitIntoChunks(content)`. -/
def splitIntoChunks (content : List Char) : List ChunkMetadata :=
  chunkLoop (splitLines content) (splitLines content).length 0

/-- `len(lines)` for a given content: the number of lines the Go code sees. -/
def numLines (content : List Char) : Nat := (splitLines content).length

theorem splitLines_ne_nil (cs : List Char) : splitLines cs ≠ [] := by
  induction cs with
  | nil => simp [splitLines]
  | cons c cs ih =>
    simp only [splitLines]
    split
    · simp
    · cases h : splitLines cs <;> simp

/-- The Go code's line count equals the number of newline characters plus one. -/
theorem length_splitLines (cs : List Char) :
    (splitLines cs).length = cs.count '\n' + 1 := by
  induction cs with
  | nil => simp [splitLines]
  | cons c cs ih =>
    simp only [splitLines, List.count_cons]
    by_cases hc : c = '\n'
    · subst hc
      simp [ih]
    · have hb : ('\n' == c) = false := by
        simpa using fun h => hc h.symm
      cases h : splitLines cs with
      | nil => exact absurd h (splitLines_ne_nil cs)
      | cons r rs =>
        simp [hc, hb, h] at ih ⊢
        omega

/-- Loop invariant of `chunkLoop`: every emitted chunk keeps its zero `ID`,
starts at the loop position plus a multiple of the step 45, spans exactly the
window `[startLine, min (startLine + 49) len]`, stays inside the line range,
and has non-blank content. -/
theorem chunkLoop_mem (lines : List Line) :
    ∀ fuel i c, c ∈ chunkLoop lines fuel i →
      c.id = 0 ∧ (∃ k, c.startLine = i + 1 + 45 * k) ∧ i + 1 ≤ c.startLine ∧
      c.endLine = min (c.startLine + 49) lines.length ∧
      c.startLine ≤ c.endLine ∧ c.endLine ≤ lines.length ∧
      trimIsEmpty c.content = false := by
  intro fuel
  induction fuel with
  | zero =>
    intro i c hc
    rw [chunkLoop] at hc
    exact absurd hc (List.not_mem_nil c)
  | succ n ih =>
    intro i c hc
    rw [chunkLoop] at hc
    by_cases h : i < lines.length
    · rw [if_pos h] at hc
      simp only at hc
      have hlit : c = { id := 0, startLine := i + 1, endLine := min (i + 50) lines.length,
                        content := joinNl (window lines i (min (i + 50) lines.length)) } →
          trimIsEmpty (joinNl (window lines i (min (i + 50) lines.length))) = false →
          c.id = 0 ∧ (∃ k, c.startLine = i + 1 + 45 * k) ∧ i + 1 ≤ c.startLine ∧
          c.endLine = min (c.startLine + 49) lines.length ∧
          c.startLine ≤ c.endLine ∧ c.endLine ≤ lines.length ∧
          trimIsEmpty c.content = false := by
        rintro rfl hb
        refine ⟨rfl, ⟨0, ?_⟩, ?_, ?_, ?_, ?_, ?_⟩
        · show i + 1 = i + 1 + 45 * 0
          omega
        · show i + 1 ≤ i + 1
          omega
        · show min (i + 50) lines.length = min (i + 1 + 49) lines.length
          omega
        · show i + 1 ≤ min (i + 50) lines.length
          omega
        · show min (i + 50) lines.length ≤ lines.length
          omega
        · exact hb
      by_cases hb : trimIsEmpty (joinNl (window lines i (min (i + 50) lines.length)))
      · rw [if_pos hb] at hc
        by_cases hstop : lines.length ≤ min (i + 50) lines.length
        · rw [if_pos hstop] at hc
          exact absurd hc (List.not_mem_nil c)
        · rw [if_neg hstop, List.nil_append] at hc
          have := ih (i + 45) c hc
          rcases this with ⟨h1, ⟨k, hk⟩, h3, h4, h5, h6, h7⟩
          exact ⟨h1, ⟨k + 1, by omega⟩, by omega, h4, h5, h6, h7⟩
      · rw [if_neg hb] at hc
        by_cases hstop : lines.length ≤ min (i + 50) lines.length
        · rw [if_pos hstop] at hc
          exact hlit (List.mem_singleton.mp hc) (by simpa using hb)
        · rw [if_neg hstop] at hc
          rcases List.mem_append.mp hc with hc' | hc'
          · exact hlit (List.mem_singleton.mp hc') (by simpa using hb)
          · have := ih (i + 45) c hc'
            rcases this with ⟨h1, ⟨k, hk⟩, h3, h4, h5, h6, h7⟩
            exact ⟨h1, ⟨k + 1, by omega⟩, by omega, h4, h5, h6, h7⟩
    · rw [if_neg h] at hc
      exact absurd hc (List.not_mem_nil c)

/-- The window starts (0-based) the `splitIntoChunks` loop actually visits:
`0, 45, 90, …`, stopping with the first window whose end reaches
`len(lines)` — the same stride, guard and break as `chunkLoop`, under the
same fuel discipline. -/
def windowStarts (lines : List Line) : Nat → Nat → List Nat
  | 0, _ => []
  | fuel + 1, i =>
    if i < lines.length then
      if lines.length ≤ min (i + 50) lines.length then [i]
      else i :: windowStarts lines fuel (i + 45)
    else []

/-- Every visited window start is a stride-45 offset inside the line range. -/
theorem windowStarts_mem (lines : List Line) :
    ∀ fuel i j, j ∈ windowStarts lines fuel i →
      (∃ k, j = i + 45 * k) ∧ j < lines.length := by
  intro fuel
  induction fuel with
  | zero =>
    intro i j hj
    rw [windowStarts] at hj
    exact absurd hj (List.not_mem_nil j)
  | succ n ih =>
    intro i j hj
    rw [windowStarts] at hj
    by_cases h : i < lines.length
    · rw [if_pos h] at hj
      by_cases hstop : lines.length ≤ min (i + 50) lines.length
      · rw [if_pos hstop] at hj
        rcases List.mem_singleton.mp hj with rfl
        exact ⟨⟨0, by omega⟩, h⟩
      · rw [if_neg hstop] at hj
        rcases List.mem_cons.mp hj with rfl | hj2
        · exact ⟨⟨0, by omega⟩, h⟩
        · rcases ih (i + 45) j hj2 with ⟨⟨k, hk⟩, hlt⟩
          exact ⟨⟨k + 1, by omega⟩, hlt⟩
    · rw [if_neg h] at hj
      exact absurd hj (List.not_mem_nil j)

/-- Coverage invariant of `chunkLoop`: if every window the loop visits from
position `i` on is non-blank, the chunks it emits cover every line in
`[i + 1, len]`. -/
theorem chunkLoop_cover (lines : List Line) :
    ∀ fuel i ln,
      (∀ j ∈ windowStarts lines fuel i,
        trimIsEmpty (joinNl (window lines j (min (j + 50) lines.length))) = false) →
      lines.length - i ≤ fuel → i < lines.length →
      i + 1 ≤ ln → ln ≤ lines.length →
      ∃ c ∈ chunkLoop lines fuel i, c.startLine ≤ ln ∧ ln ≤ c.endLine := by
  intro fuel
  induction fuel with
  | zero => intro i ln _ hn hi _ _; omega
  | succ n ih =>
    intro i ln hnb hn hi hlo hhi
    have hself : i ∈ windowStarts lines (n + 1) i := by
      rw [windowStarts, if_pos hi]
      by_cases hstop : lines.length ≤ min (i + 50) lines.length
      · rw [if_pos hstop]
        exact List.mem_singleton.mpr rfl
      · rw [if_neg hstop]
        exact List.mem_cons_self i _
    have hb2 : ¬ (trimIsEmpty (joinNl (window lines i (min (i + 50) lines.length))) = true) := by
      simp [hnb i hself]
    rw [chunkLoop, if_pos hi]
    simp only
    rw [if_neg hb2]
    by_cases hstop : lines.length ≤ min (i + 50) lines.length
    · rw [if_pos hstop]
      refine ⟨_, List.mem_singleton.mpr rfl, ?_, ?_⟩
      · show i + 1 ≤ ln
        omega
      · show ln ≤ min (i + 50) lines.length
        omega
    · rw [if_neg hstop]
      by_cases hln : ln ≤ i + 50
      · refine ⟨_, List.mem_append_left _ (List.mem_singleton.mpr rfl), ?_, ?_⟩
        · show i + 1 ≤ ln
          omega
        · show ln ≤ min (i + 50) lines.length
          omega
      · have hnb2 : ∀ j ∈ windowStarts lines n (i + 45),
            trimIsEmpty (joinNl (window lines j (min (j + 50) lines.length))) = false := by
          intro j hj
          apply hnb
          rw [windowStarts, if_pos hi, if_neg hstop]
          exact List.mem_cons_of_mem i hj
        have hrec := ih (i + 45) ln hnb2 (by omega) (by omega) (by omega) hhi
        rcases hrec with ⟨c, hc, hcov⟩
        exact ⟨c, List.mem_append_right _ hc, hcov⟩

/-! ## Claims C2 and C9: chunker properties -/

/-- **C9.** Every chunk emitted by `splitIntoChunks` satisfies
`1 ≤ startLine ≤ endLine ≤ N`, where `N` is the number of newline characters
in the content plus one, and spans at most 50 lines. -/
theorem C9_chunk_bounds (content : List Char) (c : ChunkMetadata)
    (hc : c ∈ splitIntoChunks content) :
    1 ≤ c.startLine ∧ c.startLine ≤ c.endLine ∧
    c.endLine ≤ content.count '\n' + 1 ∧ c.endLine + 1 ≤ c.startLine + 50 := by
  have h := chunkLoop_mem (splitLines content) (splitLines content).length 0 c hc
  rcases h with ⟨_, _, h3, h4, h5, h6, _⟩
  rw [length_splitLines] at h6
  exact ⟨by omega, h5, h6, by omega⟩

/-- Witness for `C9_chunk_bounds` at the one-line content `"a"`. -/
theorem C9_chunk_bounds_witness :
    ∃ c ∈ splitIntoChunks ['a'], 1 ≤ c.startLine ∧ c.startLine ≤ c.endLine ∧
      c.endLine ≤ (['a'] : List Char).count '\n' + 1 ∧ c.endLine + 1 ≤ c.startLine + 50 :=
  ⟨⟨0, 1, 1, ['a']⟩, by decide, C9_chunk_bounds ['a'] ⟨0, 1, 1, ['a']⟩ (by decide)⟩

/-- **C2 (amended).** Windows start at lines `1, 46, 91, …` (`windowStarts`
lists the offsets the loop visits, stopping with the first window whose end
reaches `L`) and cover `[startLine, min (startLine + 49) L]`; a window is
emitted only when its joined text is non-blank; and the emitted chunks cover
every line in `[1, L]` provided each visited window is non-blank (dropping a
blank window loses the lines exclusive to it, see
`C2_coverage_counterexample`). -/
theorem C2_windows_and_conditional_coverage (content : List Char) :
    (∀ c ∈ splitIntoChunks content,
        (∃ k, c.startLine = 1 + 45 * k) ∧
        c.endLine = min (c.startLine + 49) (numLines content) ∧
        trimIsEmpty c.content = false) ∧
    (∀ j ∈ windowStarts (splitLines content) (numLines content) 0,
        (∃ k, j = 45 * k) ∧ j < numLines content) ∧
    ((∀ j ∈ windowStarts (splitLines content) (numLines content) 0,
        trimIsEmpty (joinNl (window (splitLines content) j
          (min (j + 50) (numLines content)))) = false) →
      ∀ ln, 1 ≤ ln → ln ≤ numLines content →
        ∃ c ∈ splitIntoChunks content, c.startLine ≤ ln ∧ ln ≤ c.endLine) := by
  refine ⟨?_, ?_, ?_⟩
  · intro c hc
    have h := chunkLoop_mem (splitLines content) (splitLines content).length 0 c hc
    rcases h with ⟨_, ⟨k, hk⟩, _, h4, _, _, h7⟩
    exact ⟨⟨k, by omega⟩, h4, h7⟩
  · intro j hj
    rcases windowStarts_mem (splitLines content) (numLines content) 0 j hj with ⟨⟨k, hk⟩, hlt⟩
    exact ⟨⟨k, by omega⟩, hlt⟩
  · intro hnb ln h1 h2
    exact chunkLoop_cover (splitLines content) (splitLines content).length 0 ln hnb
      (by omega) (List.length_pos.mpr (splitLines_ne_nil content)) h1 h2

/-- Witness for `C2_windows_and_conditional_coverage` at content `"a"`,
whose single visited window is non-blank: line 1 is covered. -/
theorem C2_windows_and_conditional_coverage_witness :
    ∃ c ∈ splitIntoChunks ['a'], c.startLine ≤ 1 ∧ 1 ≤ c.endLine :=
  (C2_windows_and_conditional_coverage ['a']).2.2 (by decide) 1 (by decide) (by decide)

/-- Content of 51 lines whose trailing window (lines 46–51) is entirely
blank: a single `'a'` followed by 50 newlines. -/
def blankTail : List Char := 'a' :: List.replicate 50 '\n'

/-- **C2 counterexample.** For `blankTail` the code emits only the chunk
`[1, 50]`: the blank window `[46, 51]` is dropped, so line 51 of the 51-line
content is covered by no emitted chunk, refuting the unconditional coverage
in the claim. -/
theorem C2_coverage_counterexample :
    numLines blankTail = 51 ∧
    ∀ c ∈ splitIntoChunks blankTail, ¬ (c.startLine ≤ 51 ∧ 51 ≤ c.endLine) := by
  decide

/-! ## Cosine similarity (`cosineSimilarity`, part_003 lines 97–118) -/

/-- The `dotProduct` accumulator of `cosineSimilarity`: `Σ a[i]*b[i]`
(the Go loop runs over the common index range). -/
def dotProduct (a b : List ℝ) : ℝ := (List.zipWith (fun x y => x * y) a b).sum

/-- The `normA` / `normB` accumulators of `cosineSimilarity`: `Σ x*x`. -/
def sqNorm (a : List ℝ) : ℝ := (a.map (fun x => x * x)).sum

/-- `cosineSimilarity(a, b)`: `0` on dimension mismatch, `0` when either
squared norm is zero, otherwise `dot / (√normA * √normB)`.  Go's `float32`
products widened to `float64` are modelled as exact reals, so the
"within floating-point tolerance" caveats of the spec become equalities. -/
noncomputable def cosineSimilarity (a b : List ℝ) : ℝ :=
  if a.length ≠ b.length then 0
  else if sqNorm a = 0 ∨ sqNorm b = 0 then 0
  else dotProduct a b / (Real.sqrt (sqNorm a) * Real.sqrt (sqNorm b))

theorem sqNorm_nonneg (a : List ℝ) : 0 ≤ sqNorm a := by
  apply List.sum_nonneg
  intro x hx
  rcases List.mem_map.mp hx with ⟨y, _, rfl⟩
  exact mul_self_nonneg y

theorem dotProduct_self (a : List ℝ) : dotProduct a a = sqNorm a := by
  induction a with
  | nil => rfl
  | cons x xs ih =>
    simp only [dotProduct, List.zipWith_cons_cons, List.sum_cons, sqNorm, List.map_cons]
    exact congrArg (fun t => x * x + t) ih

/-- The inductive step of Cauchy–Schwarz for list sums. -/
theorem cs_step (x y d A B : ℝ) (hA : 0 ≤ A) (hB : 0 ≤ B) (h : d ^ 2 ≤ A * B) :
    (x * y + d) ^ 2 ≤ (x * x + A) * (y * y + B) := by
  rcases hB.eq_or_lt with hB0 | hBpos
  · have hd : d = 0 := by nlinarith [sq_nonneg d]
    subst hd
    nlinarith [mul_nonneg hA (mul_self_nonneg y)]
  · nlinarith [sq_nonneg (x * B - y * d), mul_nonneg (mul_self_nonneg y) (sub_nonneg.mpr h),
      mul_nonneg hBpos.le (sub_nonneg.mpr h)]

/-- Cauchy–Schwarz for the code's accumulators. -/
theorem dotProduct_sq_le (a : List ℝ) : ∀ b, dotProduct a b ^ 2 ≤ sqNorm a * sqNorm b := by
  induction a with
  | nil =>
    intro b
    simp [dotProduct, sqNorm]
  | cons x xs ih =>
    intro b
    cases b with
    | nil => simp [dotProduct, sqNorm]
    | cons y ys =>
      have h := ih ys
      have hA := sqNorm_nonneg xs
      have hB := sqNorm_nonneg ys
      simp only [dotProduct, List.zipWith_cons_cons, List.sum_cons, sqNorm, List.map_cons] at h hA hB ⊢
      exact cs_step x y _ _ _ hA hB h

/-- **C5.** The similarity of two vectors equals
`dot(q,v) / (‖q‖·‖v‖)`, is exactly `0` on a zero-magnitude operand or a
dimension mismatch, lies in `[-1, 1]` for non-zero vectors of equal
dimension, and equals `1` for a non-zero vector against itself. -/
theorem C5_cosine_similarity :
    (∀ a b : List ℝ, a.length ≠ b.length → cosineSimilarity a b = 0) ∧
    (∀ a b : List ℝ, sqNorm a = 0 ∨ sqNorm b = 0 → cosineSimilarity a b = 0) ∧
    (∀ a b : List ℝ, a.length = b.length → sqNorm a ≠ 0 → sqNorm b ≠ 0 →
      cosineSimilarity a b =
        dotProduct a b / (Real.sqrt (sqNorm a) * Real.sqrt (sqNorm b)) ∧
      -1 ≤ cosineSimilarity a b ∧ cosineSimilarity a b ≤ 1) ∧
    (∀ a : List ℝ, sqNorm a ≠ 0 → cosineSimilarity a a = 1) := by
  have formula : ∀ a b : List ℝ, a.length = b.length → sqNorm a ≠ 0 → sqNorm b ≠ 0 →
      cosineSimilarity a b =
        dotProduct a b / (Real.sqrt (sqNorm a) * Real.sqrt (sqNorm b)) := by
    intro a b hlen hA hB
    rw [cosineSimilarity, if_neg (by simp [hlen]), if_neg (by simp [hA, hB])]
  refine ⟨?_, ?_, ?_, ?_⟩
  · intro a b hlen
    rw [cosineSimilarity, if_pos hlen]
  · intro a b hz
    rw [cosineSimilarity]
    by_cases hlen : a.length ≠ b.length
    · rw [if_pos hlen]
    · rw [if_neg hlen, if_pos hz]
  · intro a b hlen hA hB
    have hA0 : 0 < sqNorm a := lt_of_le_of_ne (sqNorm_nonneg a) (Ne.symm hA)
    have hB0 : 0 < sqNorm b := lt_of_le_of_ne (sqNorm_nonneg b) (Ne.symm hB)
    have hP : 0 < Real.sqrt (sqNorm a) * Real.sqrt (sqNorm b) :=
      mul_pos (Real.sqrt_pos.mpr hA0) (Real.sqrt_pos.mpr hB0)
    have hPsq : (Real.sqrt (sqNorm a) * Real.sqrt (sqNorm b)) ^ 2 = sqNorm a * sqNorm b := by
      rw [mul_pow, Real.sq_sqrt hA0.le, Real.sq_sqrt hB0.le]
    have habs : |dotProduct a b| ≤ Real.sqrt (sqNorm a) * Real.sqrt (sqNorm b) := by
      have h1 : Real.sqrt (dotProduct a b ^ 2) ≤
          Real.sqrt ((Real.sqrt (sqNorm a) * Real.sqrt (sqNorm b)) ^ 2) :=
        Real.sqrt_le_sqrt (by rw [hPsq]; exact dotProduct_sq_le a b)
      rwa [Real.sqrt_sq_eq_abs, Real.sqrt_sq hP.le] at h1
    refine ⟨formula a b hlen hA hB, ?_, ?_⟩
    · rw [formula a b hlen hA hB]
      rw [le_div_iff₀ hP]
      have := (abs_le.mp habs).1
      linarith
    · rw [formula a b hlen hA hB]
      rw [div_le_one hP]
      exact (abs_le.mp habs).2
  · intro a hA
    rw [formula a a rfl hA hA, dotProduct_self,
      Real.mul_self_sqrt (sqNorm_nonneg a), div_self hA]

/-- Witness for `C5_cosine_similarity`: the one-dimensional vector `[1]` is
non-zero and its self-similarity is `1`; `[1]` and `[2]` have equal length
and non-zero norms, and their similarity obeys the formula and the bounds. -/
theorem C5_cosine_similarity_witness :
    (sqNorm [(1 : ℝ)] ≠ 0 ∧ cosineSimilarity [(1 : ℝ)] [(1 : ℝ)] = 1) ∧
    (-1 ≤ cosineSimilarity [(1 : ℝ)] [(2 : ℝ)] ∧ cosineSimilarity [(1 : ℝ)] [(2 : ℝ)] ≤ 1) := by
  have h1 : sqNorm [(1 : ℝ)] ≠ 0 := by norm_num [sqNorm]
  have h2 : sqNorm [(2 : ℝ)] ≠ 0 := by norm_num [sqNorm]
  exact ⟨⟨h1, C5_cosine_similarity.2.2.2 [(1 : ℝ)] h1⟩,
    (C5_cosine_similarity.2.2.1 [(1 : ℝ)] [(2 : ℝ)] rfl h1 h2).2⟩

/-! ## Ingestion (`VectorStore.processFile`) -/

/-- The chunk-processing loop of `processFile` (part_003 lines 337–365):
for each chunk, skip it if blank, otherwise allocate `chunkID := nextID++`,
insert `{chunk with ID := chunkID}` plus its embedding into `vectors`, and
append the ORIGINAL `chunk` value — whose `ID` field is still `0` — to the
file's metadata chunk list (the source sets `chunkVec.ID` but never
`chunk.ID`; its sibling `internal/vector/vector.go` line 346 does set it).
`embed` stands for the external `llmClient.EmbedText` gateway, assumed to
succeed; the fail-fast abort on an embedding error is not exercised by the
claims settled here. -/
def processChunks (embed : List Char → List ℝ) :
    List ChunkMetadata → Nat → List (Nat × ChunkVector) → List ChunkMetadata →
    Nat × List (Nat × ChunkVector) × List ChunkMetadata
  | [], nid, vecs, acc => (nid, vecs, acc)
  | c :: cs, nid, vecs, acc =>
    if trimIsEmpty c.content then processChunks embed cs nid vecs acc
    else
      processChunks embed cs (nid + 1)
        (vecs ++ [(nid, { meta := { c with id := nid }, vector := embed c.content })])
        (acc ++ [c])

/-- `VectorStore.processFile` (part_003 lines 311–373): split into chunks,
return the store unchanged when there are none, otherwise allocate
`fileID := nextID++`, run the chunk loop, and store the file metadata under
the fresh key `fileID` (a Go map insert of a fresh key, modelled as
appending the binding). -/
def processFile (embed : List Char → List ℝ) (s : VectorStore)
    (path : String) (content : List Char) : VectorStore :=
  let chunks := splitIntoChunks content
  if chunks.isEmpty then s
  else
    let fileID := s.nextID
    let r := processChunks embed chunks (fileID + 1) s.vectors []
    { metadata := s.metadata ++
        [(fileID, { id := fileID, filePath := path, content := content, chunks := r.2.2 })],
      vectors := r.2.1,
      nextID := r.1 }

/-- `CreateIndex`'s per-file loop over the discovered files (the filesystem
walk and the trailing `saveIndex` call sit outside the store model). -/
def createIndex (embed : List Char → List ℝ) (s : VectorStore)
    (files : List (String × List Char)) : VectorStore :=
  files.foldl (fun st f => processFile embed st f.1 f.2) s

/-! ## Persistence (`saveIndex` / `LoadIndex`) -/

/-- The record `saveIndex` marshals: `{"metadata": …, "vectors": …}`.
JSON (de)serialisation of these records is value-faithful, so serialisation
is modelled as the identity on the record. -/
structure PersistedIndex where
  metadata : List (Nat × FileMetadata)
  vectors : List (Nat × ChunkVector)

/-- `VectorStore.saveIndex` (part_003 lines 201–225). -/
def saveIndex (s : VectorStore) : PersistedIndex :=
  { metadata := s.metadata, vectors := s.vectors }

/-- The `maxID` scan of `LoadIndex` (part_003 lines 256–267): the maximum of
the file IDs and chunk IDs found in the METADATA map only — the keys of the
`vectors` map are never consulted. -/
def loadMaxID (metadata : List (Nat × FileMetadata)) : Nat :=
  metadata.foldl (fun m p => p.2.chunks.foldl (fun m2 c => max m2 c.id) (max m p.2.id)) 0

/-- The state `LoadIndex` installs after a successful decode. -/
def loadIndex (p : PersistedIndex) : VectorStore :=
  { metadata := p.metadata, vectors := p.vectors, nextID := loadMaxID p.metadata + 1 }

/-- The error taxonomy of the load path. -/
inductive LoadError
  | notFound
  | ioError
  | formatError
deriving DecidableEq, Repr

/-- What reading the persisted file can yield. -/
inductive DiskRead
  | missing
  | readFailure
  | contents (bytes : List Nat)
deriving DecidableEq, Repr

/-- `VectorStore.LoadIndex` (part_003 lines 228–272), returning the Go
function's error result together with the store state after the call: the
stat check (`NotFoundError`), the file read (`IOError`) and `json.Unmarshal`
into a LOCAL record (`FormatError`) all `return` before any assignment to
the store's fields, so on every error path the state component is the input
state unchanged; only a fully decoded record is swapped in.  `decode` stands
for `json.Unmarshal` against the expected record shape. -/
def loadIndexGo (decode : List Nat → Option PersistedIndex)
    (disk : DiskRead) (s : VectorStore) : Except LoadError Unit × VectorStore :=
  match disk with
  | .missing => (.error .notFound, s)
  | .readFailure => (.error .ioError, s)
  | .contents bytes =>
    match decode bytes with
    | none => (.error .formatError, s)
    | some p => (.ok (), loadIndex p)

/-! ## Search (`VectorStore.Search`) -/

/-- One entry of the `scores` slice built by `Search`. -/
structure ScoreEntry where
  chunkVec : ChunkVector
  fileMeta : FileMetadata
  score : ℝ

/-- The score-collection loop of `Search` (part_003 lines 160–173): iterate
the `metadata` map in its enumeration order, iterate each file's chunk list
in order, and keep an entry for every chunk whose `ID` resolves in the
`vectors` map. -/
noncomputable def collectScores (q : List ℝ) (s : VectorStore) : List ScoreEntry :=
  s.metadata.flatMap fun p =>
    p.2.chunks.filterMap fun c =>
      (List.lookup c.id s.vectors).map fun vec =>
        { chunkVec := vec, fileMeta := p.2, score := cosineSimilarity q vec.vector }

/-- The comparator of `sort.Slice(scores, …)`: descending score. -/
def scoreGE (a b : ScoreEntry) : Prop := b.score ≤ a.score

noncomputable instance : DecidableRel scoreGE := fun a b => Real.decidableLE b.score a.score

instance : IsTotal ScoreEntry scoreGE := ⟨fun a b => le_total b.score a.score⟩

instance : IsTrans ScoreEntry scoreGE := ⟨fun _ _ _ h1 h2 => le_trans h2 h1⟩

/-- The sort of `Search`.  Go's `sort.Slice` is unstable and leaves the
relative order of tying entries unspecified; the model picks the stable
insertion sort over the same comparator, one of the permitted outcomes
(which coincides with what Go's sort does on the two-element slices used in
the concrete theorems below). -/
noncomputable def sortByScore (l : List ScoreEntry) : List ScoreEntry :=
  List.insertionSort scoreGE l

/-- `VectorStore.Search(query, limit)` (part_003 lines 143–198) after the
query has been embedded: collect scores, sort by descending score, clamp
`limit` to `len(scores)` when it exceeds it, and return the first `limit`
entries as `types.SearchResult` values (`Line` takes the chunk's
`StartLine`, `Distance` its score).  For a negative `limit` the Go code
panics at `make([]types.SearchResult, 0, limit)`; the claims below apply the
model only at `limit ≥ 0`, where it agrees with the code. -/
noncomputable def search (q : List ℝ) (s : VectorStore) (limit : ℤ) : List SearchResult :=
  let scores := collectScores q s
  let lim : ℤ := if (scores.length : ℤ) < limit then (scores.length : ℤ) else limit
  ((sortByScore scores).take lim.toNat).map fun e =>
    { path := e.fileMeta.filePath, line := e.chunkVec.meta.startLine,
      content := e.chunkVec.meta.content, distance := e.score }

/-- `tools.SearchCodebase` (tools.go lines 84–104): create a fresh store,
try `LoadIndex`, and on a load failure surface that error (the Go message
appends "Please run index command first"); otherwise delegate to `Search`. -/
noncomputable def searchCodebase (decode : List Nat → Option PersistedIndex)
    (disk : DiskRead) (q : List ℝ) (limit : ℤ) : Except LoadError (List SearchResult) :=
  match loadIndexGo decode disk freshStore with
  | (.error e, _) => .error e
  | (.ok _, s) => .ok (search q s limit)

/-- The `limit` defaulting performed by the CALLERS `File.searchFiles`
(part_001 lines 85–91) and `search.SearchCodebase` (part_004) before they
delegate: `limit ≤ 0` is replaced by 10. -/
def searchFilesEffectiveLimit (limit : ℤ) : ℤ := if limit ≤ 0 then 10 else limit

/-! ## Identifier bookkeeping -/

/-- The document IDs recorded in the metadata map (`FileMetadata.ID`). -/
def docIDs (s : VectorStore) : List Nat := s.metadata.map fun p => p.2.id

/-- The chunk IDs recorded in the per-file metadata chunk lists. -/
def metaChunkIDs (s : VectorStore) : List Nat :=
  s.metadata.flatMap fun p => p.2.chunks.map ChunkMetadata.id

/-- The keys of the `vectors` map. -/
def vectorKeys (s : VectorStore) : List Nat := s.vectors.map Prod.fst

/-- Every identifier recorded anywhere in the store: file metadata IDs,
per-file chunk-list IDs, and vectors-map keys. -/
def allIDs (s : VectorStore) : List Nat := docIDs s ++ metaChunkIDs s ++ vectorKeys s

/-- `splitIntoChunks` only emits non-blank chunks. -/
theorem splitIntoChunks_nonblank (content : List Char) :
    ∀ c ∈ splitIntoChunks content, trimIsEmpty c.content = false := fun c hc =>
  (chunkLoop_mem (splitLines content) _ 0 c hc).2.2.2.2.2.2

/-- On an all-non-blank chunk list, `processChunks` advances the counter by
the number of chunks, appends vector bindings keyed by the contiguous ID
range starting at `nid` in allocation order, and appends the original chunk
values (IDs untouched) to the metadata accumulator. -/
theorem processChunks_spec (embed : List Char → List ℝ) :
    ∀ (cs : List ChunkMetadata) (nid : Nat) (vecs : List (Nat × ChunkVector))
      (acc : List ChunkMetadata), (∀ c ∈ cs, trimIsEmpty c.content = false) →
      (processChunks embed cs nid vecs acc).1 = nid + cs.length ∧
      (processChunks embed cs nid vecs acc).2.1.map Prod.fst =
        vecs.map Prod.fst ++ List.range' nid cs.length ∧
      (processChunks embed cs nid vecs acc).2.2 = acc ++ cs := by
  intro cs
  induction cs with
  | nil =>
    intro nid vecs acc _
    simp [processChunks]
  | cons c cs ih =>
    intro nid vecs acc h
    have hc : trimIsEmpty c.content = false := h c (List.mem_cons_self c cs)
    rw [processChunks, if_neg (by simp [hc])]
    have hrest := ih (nid + 1)
      (vecs ++ [(nid, { meta := { c with id := nid }, vector := embed c.content })])
      (acc ++ [c]) (fun d hd => h d (List.mem_cons_of_mem _ hd))
    rcases hrest with ⟨h1, h2, h3⟩
    refine ⟨by rw [h1]; simp [Nat.add_comm, Nat.add_assoc, Nat.add_left_comm], ?_, by rw [h3]; simp⟩
    rw [h2, List.length_cons, List.range'_succ]
    simp

/-- `List.range'` with step 1 is strictly increasing. -/
theorem chain_lt_range_one (a : Nat) : ∀ n, List.Chain' (· < ·) (List.range' a n) := by
  intro n
  induction n generalizing a with
  | zero => exact List.chain'_nil
  | succ n ih =>
    rw [List.range'_succ]
    cases n with
    | zero => simp
    | succ m =>
      rw [List.range'_succ]
      exact List.Chain'.cons (by omega) (by rw [← List.range'_succ]; exact ih (a + 1))

/-! ## Claims C4, C10, C3: identifier allocation and the round trip -/

/-- The store obtained by ingesting the one-line files `a.go` (`"a"`) and
`b.go` (`"b"`) into a fresh store (the embedding gateway returning any
vector; IDs do not depend on it). -/
def twoFileStore : VectorStore :=
  processFile (fun _ => []) (processFile (fun _ => []) freshStore "a.go" ['a']) "b.go" ['b']

/-- **C4 (refuting theorem).** After two ingests from a fresh store the IDs
recorded in the store are `[1, 3]` (documents), `[0, 0]` (metadata chunk
lists — `processFile` sets the allocated ID only on the vectors-map copy and
appends the original zero-ID chunk value to the file metadata) and `[2, 4]`
(vectors keys): the metadata chunk IDs collide, so the store's IDs are not
pairwise distinct. -/
theorem C4_ids_not_distinct :
    allIDs twoFileStore = [1, 3, 0, 0, 2, 4] ∧ ¬ (allIDs twoFileStore).Nodup := by
  constructor
  · rfl
  · decide

/-- The counter after `processFile`. -/
theorem processFile_nextID (embed : List Char → List ℝ) (s : VectorStore)
    (path : String) (content : List Char) :
    (processFile embed s path content).nextID =
      if splitIntoChunks content = [] then s.nextID
      else s.nextID + 1 + (splitIntoChunks content).length := by
  by_cases hne : splitIntoChunks content = []
  · rw [processFile]
    simp [hne]
  · have hemp : (splitIntoChunks content).isEmpty = false := by
      cases h : splitIntoChunks content with
      | nil => exact absurd h hne
      | cons a l => rfl
    rw [processFile]
    simp only [hemp, Bool.false_eq_true, if_false, if_neg hne]
    exact (processChunks_spec embed (splitIntoChunks content) (s.nextID + 1)
      s.vectors [] (splitIntoChunks_nonblank content)).1

/-- The IDs allocated by one `CreateIndex` run, in allocation order: for
each file in discovery order that yields chunks, the document ID first, then
the file's chunk IDs in chunk order (`processFile` draws them all from the
shared `nextID` counter). -/
def runTrace (embed : List Char → List ℝ) (s : VectorStore) :
    List (String × List Char) → List Nat
  | [] => []
  | f :: fs =>
    (if splitIntoChunks f.2 = [] then []
     else s.nextID :: List.range' (s.nextID + 1) (splitIntoChunks f.2).length) ++
    runTrace embed (processFile embed s f.1 f.2) fs

/-- One indexing run allocates exactly the contiguous ID range from the
starting counter to the final counter, in order. -/
theorem runTrace_eq (embed : List Char → List ℝ) :
    ∀ (files : List (String × List Char)) (s : VectorStore),
      s.nextID ≤ (createIndex embed s files).nextID ∧
      runTrace embed s files =
        List.range' s.nextID ((createIndex embed s files).nextID - s.nextID) := by
  intro files
  induction files with
  | nil =>
    intro s
    simp [createIndex, runTrace]
  | cons f fs ih =>
    intro s
    have hstep : createIndex embed s (f :: fs) =
        createIndex embed (processFile embed s f.1 f.2) fs := rfl
    have hnid := processFile_nextID embed s f.1 f.2
    rcases ih (processFile embed s f.1 f.2) with ⟨ih1, ih2⟩
    rw [runTrace, hstep]
    by_cases hne : splitIntoChunks f.2 = []
    · rw [if_pos hne, List.nil_append, ih2]
      rw [if_pos hne] at hnid
      rw [hnid] at ih1 ih2 ⊢
      exact ⟨ih1, rfl⟩
    · rw [if_neg hne]
      rw [if_neg hne] at hnid
      rw [hnid] at ih1
      constructor
      · omega
      · rw [ih2, hnid]
        have hcons : s.nextID :: List.range' (s.nextID + 1) (splitIntoChunks f.2).length =
            List.range' s.nextID ((splitIntoChunks f.2).length + 1) := by
          rw [List.range'_succ]
        have harith : s.nextID + 1 + (splitIntoChunks f.2).length =
            s.nextID + ((splitIntoChunks f.2).length + 1) := by omega
        rw [hcons, harith, List.range'_append_1]
        congr 1
        omega

/-- **C10.** `processFile` allocates the document ID `s.nextID` strictly
before the file's chunk IDs: the vectors-map keys it appends are the
contiguous range starting at `s.nextID + 1`, each strictly greater than the
document ID, strictly increasing in allocation order, and the counter ends
just past the last allocated ID; moreover the IDs allocated across any whole
indexing run (`runTrace`) are strictly increasing in allocation order. -/
theorem C10_allocation_discipline (embed : List Char → List ℝ) (s : VectorStore)
    (path : String) (content : List Char) (hne : splitIntoChunks content ≠ []) :
    docIDs (processFile embed s path content) = docIDs s ++ [s.nextID] ∧
    vectorKeys (processFile embed s path content) =
      vectorKeys s ++ List.range' (s.nextID + 1) (splitIntoChunks content).length ∧
    (∀ k ∈ List.range' (s.nextID + 1) (splitIntoChunks content).length, s.nextID < k) ∧
    List.Chain' (· < ·) (List.range' (s.nextID + 1) (splitIntoChunks content).length) ∧
    (processFile embed s path content).nextID =
      s.nextID + 1 + (splitIntoChunks content).length ∧
    (∀ files : List (String × List Char), List.Chain' (· < ·) (runTrace embed s files)) := by
  have hspec := processChunks_spec embed (splitIntoChunks content) (s.nextID + 1)
    s.vectors [] (splitIntoChunks_nonblank content)
  rcases hspec with ⟨h1, h2, h3⟩
  have hemp : (splitIntoChunks content).isEmpty = false := by
    cases h : splitIntoChunks content with
    | nil => exact absurd h hne
    | cons a l => rfl
  refine ⟨?_, ?_, ?_, chain_lt_range_one _ _, ?_, ?_⟩
  · rw [processFile]
    simp only [hemp, Bool.false_eq_true, if_false, docIDs, List.map_append]
    rfl
  · rw [processFile]
    simp only [hemp, Bool.false_eq_true, if_false, vectorKeys]
    exact h2
  · intro k hk
    exact Nat.lt_of_succ_le (List.mem_range'_1.mp hk).1
  · rw [processFile]
    simp only [hemp, Bool.false_eq_true, if_false]
    rw [h1]
  · intro files
    rw [(runTrace_eq embed files s).2]
    exact chain_lt_range_one _ _

/-- Witness for `C10_allocation_discipline`: ingesting the one-line file
`a.go` into a fresh store allocates document ID 1, then chunk key 2, and
leaves the counter at 3. -/
theorem C10_allocation_discipline_witness :
    docIDs (processFile (fun _ => []) freshStore "a.go" ['a']) = docIDs freshStore ++ [1] ∧
    vectorKeys (processFile (fun _ => []) freshStore "a.go" ['a']) =
      vectorKeys freshStore ++ List.range' 2 1 ∧
    (∀ k ∈ List.range' 2 1, 1 < k) ∧
    List.Chain' (· < ·) (List.range' 2 1) ∧
    (processFile (fun _ => []) freshStore "a.go" ['a']).nextID = 3 ∧
    (∀ files : List (String × List Char),
      List.Chain' (· < ·) (runTrace (fun _ => []) freshStore files)) :=
  C10_allocation_discipline (fun _ => []) freshStore "a.go" ['a'] (by decide)

/-- The store obtained by ingesting the single one-line file `a.go` into a
fresh store: document ID 1; the chunk vector is stored under key 2; the
metadata chunk entry keeps ID 0; `nextID = 3`. -/
def oneFileStore : VectorStore := processFile (fun _ => []) freshStore "a.go" ['a']

/-- **C3 (refuting theorem).** Saving `oneFileStore` and loading the record
back restores value-equal `metadata` and `vectors` maps, but the reloaded
`nextID` is 2 — the load's max scan reads only metadata IDs, and the
metadata chunk entries carry ID 0 — although key 2 is live in the restored
vectors map and the pre-save counter was 3.  The next ID allocated after the
load is 2 and collides with the restored chunk vector, refuting
`nextId = 1 + max(all IDs present)`. -/
theorem C3_load_nextID_collision :
    (loadIndex (saveIndex oneFileStore)).metadata = oneFileStore.metadata ∧
    (loadIndex (saveIndex oneFileStore)).vectors = oneFileStore.vectors ∧
    (loadIndex (saveIndex oneFileStore)).nextID = 2 ∧
    vectorKeys (loadIndex (saveIndex oneFileStore)) = [2] ∧
    oneFileStore.nextID = 3 :=
  ⟨rfl, rfl, rfl, rfl, rfl⟩

/-! ## Claims C7 and C8: load failures and the empty/missing index -/

/-- **C7.** Every failing `LoadIndex` call — `NotFoundError` when no save
exists, `IOError` on a read failure, `FormatError` when the bytes do not
decode to the record shape — classifies the error as stated and leaves the
in-memory store exactly as it was before the call: the record is fully
decoded before any state is swapped in. -/
theorem C7_load_failure_preserves_state
    (decode : List Nat → Option PersistedIndex) (disk : DiskRead) (s : VectorStore) :
    (disk = .missing → loadIndexGo decode disk s = (.error .notFound, s)) ∧
    (disk = .readFailure → loadIndexGo decode disk s = (.error .ioError, s)) ∧
    (∀ bytes, disk = .contents bytes → decode bytes = none →
      loadIndexGo decode disk s = (.error .formatError, s)) ∧
    (∀ e s2, loadIndexGo decode disk s = (.error e, s2) → s2 = s) := by
  refine ⟨?_, ?_, ?_, ?_⟩
  · rintro rfl
    rfl
  · rintro rfl
    rfl
  · rintro bytes rfl hdec
    simp [loadIndexGo, hdec]
  · intro e s2 h
    cases disk with
    | missing =>
      injection h with h1 h2
      exact h2.symm
    | readFailure =>
      injection h with h1 h2
      exact h2.symm
    | contents bytes =>
      rw [loadIndexGo] at h
      cases hdec : decode bytes with
      | none =>
        rw [hdec] at h
        injection h with h1 h2
        exact h2.symm
      | some p =>
        rw [hdec] at h
        injection h with h1 h2
        exact absurd h1 (by simp)

/-- Witness for `C7_load_failure_preserves_state`: undecodable bytes yield
`FormatError` and the fresh store is untouched. -/
theorem C7_load_failure_preserves_state_witness :
    loadIndexGo (fun _ => none) (.contents []) freshStore =
      (.error .formatError, freshStore) :=
  (C7_load_failure_preserves_state (fun _ => none) (.contents []) freshStore).2.2.1
    [] rfl rfl

/-- **C8.** `Search` on a store holding zero chunks returns the empty result
sequence (and, with the query embedded, no error path remains in the
function), while `tools.SearchCodebase` invoked before any save exists fails
with the not-found error whose message tells the caller to run the index
command first. -/
theorem C8_empty_store_and_missing_index :
    (∀ (q : List ℝ) (s : VectorStore) (limit : ℤ), 0 ≤ limit →
      (∀ p ∈ s.metadata, p.2.chunks = ([] : List ChunkMetadata)) →
      search q s limit = []) ∧
    (∀ (decode : List Nat → Option PersistedIndex) (q : List ℝ) (limit : ℤ),
      searchCodebase decode .missing q limit = .error .notFound) := by
  constructor
  · intro q s limit _ hempty
    have hcs : collectScores q s = [] := by
      rw [collectScores, List.flatMap_eq_nil_iff]
      intro p hp
      rw [hempty p hp]
      rfl
    simp [search, hcs, sortByScore]
  · intro decode q limit
    rfl

/-- Witness for `C8_empty_store_and_missing_index` at the fresh (chunk-free)
store and a missing index file. -/
theorem C8_empty_store_and_missing_index_witness :
    search [] freshStore 5 = [] ∧
    searchCodebase (fun _ => none) .missing [] 5 = .error .notFound :=
  ⟨C8_empty_store_and_missing_index.1 [] freshStore 5 (by decide)
      (by intro p hp; exact absurd hp (List.not_mem_nil p)),
    C8_empty_store_and_missing_index.2 (fun _ => none) [] 5⟩

/-! ## Claims C1 and C6: ranking bound/order and limit handling -/

/-- **C1 (amended).** For `limit ≥ 0`, `Search` returns exactly
`min(limit, len(scores))` results (hence at most `min(limit, totalChunks)`),
ordered by non-increasing score.  The original claim's strictness,
ascending-chunk-ID tie-break and run-to-run determinism do not hold: see
`C1_tie_order_counterexample`. -/
theorem C1_search_bounded_and_sorted (q : List ℝ) (s : VectorStore) (limit : ℤ)
    (h : 0 ≤ limit) :
    (search q s limit).length = min limit.toNat (collectScores q s).length ∧
    List.Sorted (· ≥ ·) ((search q s limit).map SearchResult.distance) := by
  constructor
  · simp only [search, List.length_map, List.length_take, sortByScore,
      List.length_insertionSort]
    by_cases hc : ((collectScores q s).length : ℤ) < limit
    · rw [if_pos hc]
      omega
    · rw [if_neg hc]
  · simp only [search, List.map_map]
    have hsorted : List.Pairwise scoreGE
        ((sortByScore (collectScores q s)).take
          (if ((collectScores q s).length : ℤ) < limit then
            ((collectScores q s).length : ℤ) else limit).toNat) :=
      List.Pairwise.sublist (List.take_sublist _ _)
        (List.sorted_insertionSort scoreGE (collectScores q s))
    exact List.Pairwise.map _ (fun a b hab => hab) hsorted

/-- Witness for `C1_search_bounded_and_sorted` at the fresh store and
`limit = 0`. -/
theorem C1_search_bounded_and_sorted_witness :
    (search [] freshStore 0).length = min (0 : ℤ).toNat (collectScores [] freshStore).length ∧
    List.Sorted (· ≥ ·) ((search [] freshStore 0).map SearchResult.distance) :=
  C1_search_bounded_and_sorted [] freshStore 0 (by decide)

/-- A chunk of `a.go` carrying its allocated ID 2, as a loaded index record
restores it (`LoadIndex` accepts any persisted record, so stores whose
metadata chunk IDs match the vectors keys are reachable states). -/
def cexChunk1 : ChunkMetadata := { id := 2, startLine := 1, endLine := 1, content := ['x'] }

/-- A chunk of `b.go` carrying its allocated ID 4. -/
def cexChunk2 : ChunkMetadata := { id := 4, startLine := 1, endLine := 1, content := ['y'] }

/-- The stored vector of `cexChunk1`; its embedding equals the query used
below, so the chunk scores 1. -/
noncomputable def cexVec1 : ChunkVector := { meta := cexChunk1, vector := [1] }

/-- The stored vector of `cexChunk2`: the same embedding, so the two chunks
tie. -/
noncomputable def cexVec2 : ChunkVector := { meta := cexChunk2, vector := [1] }

/-- File `a.go` with document ID 1 and the single chunk `cexChunk1`. -/
def cexFile1 : FileMetadata := { id := 1, filePath := "a.go", content := ['x'], chunks := [cexChunk1] }

/-- File `b.go` with document ID 3 and the single chunk `cexChunk2`. -/
def cexFile2 : FileMetadata := { id := 3, filePath := "b.go", content := ['y'], chunks := [cexChunk2] }

/-- A two-file store whose metadata map is enumerated `a.go` first. -/
noncomputable def storeA : VectorStore :=
  { metadata := [(1, cexFile1), (3, cexFile2)], vectors := [(2, cexVec1), (4, cexVec2)], nextID := 5 }

/-- The same store — identical key→value bindings and vectors — with the
metadata map enumerated `b.go` first, as Go map iteration may equally
present it on another run. -/
noncomputable def storeB : VectorStore :=
  { metadata := [(3, cexFile2), (1, cexFile1)], vectors := [(2, cexVec1), (4, cexVec2)], nextID := 5 }

theorem cos11 : cosineSimilarity [(1 : ℝ)] [(1 : ℝ)] = 1 := by
  rw [cosineSimilarity, if_neg (by simp), if_neg (by norm_num [sqNorm])]
  norm_num [dotProduct, sqNorm, Real.sqrt_one]

theorem collectA : collectScores [(1 : ℝ)] storeA =
    [{ chunkVec := cexVec1, fileMeta := cexFile1, score := 1 },
     { chunkVec := cexVec2, fileMeta := cexFile2, score := 1 }] := by
  simp [collectScores, storeA, cexFile1, cexFile2, cexChunk1, cexChunk2, cexVec1, cexVec2,
    List.lookup, cos11]

theorem collectB : collectScores [(1 : ℝ)] storeB =
    [{ chunkVec := cexVec2, fileMeta := cexFile2, score := 1 },
     { chunkVec := cexVec1, fileMeta := cexFile1, score := 1 }] := by
  simp [collectScores, storeB, cexFile1, cexFile2, cexChunk1, cexChunk2, cexVec1, cexVec2,
    List.lookup, cos11]

theorem sortAB : sortByScore
    [{ chunkVec := cexVec1, fileMeta := cexFile1, score := 1 },
     { chunkVec := cexVec2, fileMeta := cexFile2, score := 1 }] =
    [{ chunkVec := cexVec1, fileMeta := cexFile1, score := 1 },
     { chunkVec := cexVec2, fileMeta := cexFile2, score := 1 }] := by
  simp [sortByScore, List.insertionSort, List.orderedInsert, scoreGE]

theorem sortBA : sortByScore
    [{ chunkVec := cexVec2, fileMeta := cexFile2, score := 1 },
     { chunkVec := cexVec1, fileMeta := cexFile1, score := 1 }] =
    [{ chunkVec := cexVec2, fileMeta := cexFile2, score := 1 },
     { chunkVec := cexVec1, fileMeta := cexFile1, score := 1 }] := by
  simp [sortByScore, List.insertionSort, List.orderedInsert, scoreGE]

theorem searchA : search [(1 : ℝ)] storeA 2 =
    [{ path := "a.go", line := 1, content := ['x'], distance := 1 },
     { path := "b.go", line := 1, content := ['y'], distance := 1 }] := by
  rw [search]
  simp only [collectA]
  rw [sortAB]
  norm_num [cexVec1, cexVec2, cexFile1, cexFile2, cexChunk1, cexChunk2]

theorem searchB : search [(1 : ℝ)] storeB 2 =
    [{ path := "b.go", line := 1, content := ['y'], distance := 1 },
     { path := "a.go", line := 1, content := ['x'], distance := 1 }] := by
  rw [search]
  simp only [collectB]
  rw [sortBA]
  norm_num [cexVec1, cexVec2, cexFile1, cexFile2, cexChunk1, cexChunk2]

/-- **C1 counterexample.** `storeA` and `storeB` are the same store — equal
vectors maps and permuted (identical) metadata bindings, both fixed points
of a save/load round trip — yet the two enumeration orders Go's map
iteration may produce give different result sequences for the same query:
the two chunks tie at score 1 and the sort has no chunk-ID tie-break, so the
output follows map order (`storeB` even returns chunk IDs 4 then 2,
violating the claimed ascending-ID order), refuting determinism. -/
theorem C1_tie_order_counterexample :
    storeA.metadata.Perm storeB.metadata ∧ storeA.vectors = storeB.vectors ∧
    loadIndex (saveIndex storeA) = storeA ∧ loadIndex (saveIndex storeB) = storeB ∧
    search [(1 : ℝ)] storeA 2 ≠ search [(1 : ℝ)] storeB 2 := by
  refine ⟨List.Perm.swap (3, cexFile2) (1, cexFile1) [], rfl, rfl, rfl, ?_⟩
  rw [searchA, searchB]
  intro h
  simp [SearchResult.mk.injEq] at h

/-- A one-chunk store (again a save/load fixed point). -/
noncomputable def storeC : VectorStore :=
  { metadata := [(1, cexFile1)], vectors := [(2, cexVec1)], nextID := 3 }

theorem collectC : collectScores [(1 : ℝ)] storeC =
    [{ chunkVec := cexVec1, fileMeta := cexFile1, score := 1 }] := by
  simp [collectScores, storeC, cexFile1, cexChunk1, cexVec1, List.lookup, cos11]

/-- **C6 counterexample.** On a store holding one chunk, the store's
`Search` with `limit = 0` returns the empty sequence while `limit = 10`
returns the chunk: `limit ≤ 0` is NOT treated as the default 10 by
`VectorStore.Search` (the defaulting happens only in the callers, see
`C6_limit_semantics`). -/
theorem C6_limit_zero_counterexample :
    loadIndex (saveIndex storeC) = storeC ∧
    search [(1 : ℝ)] storeC 0 = [] ∧
    search [(1 : ℝ)] storeC 10 =
      [{ path := "a.go", line := 1, content := ['x'], distance := 1 }] := by
  refine ⟨rfl, ?_, ?_⟩
  · rw [search]
    simp only [collectC]
    norm_num
  · rw [search]
    simp only [collectC]
    rw [show sortByScore [{ chunkVec := cexVec1, fileMeta := cexFile1, score := 1 }] =
      [{ chunkVec := cexVec1, fileMeta := cexFile1, score := 1 }] from rfl]
    norm_num [cexVec1, cexFile1, cexChunk1]

/-- **C6 (amended).** The `limit ≤ 0 → 10` defaulting lives in the callers
(`File.searchFiles`, `search.SearchCodebase`), not in the store's `Search`:
`Search` itself uses the limit as given (`limit = 0` yields the empty
sequence), and any `limit` at least the number of scored chunks returns all
of them. -/
theorem C6_limit_semantics :
    (∀ limit : ℤ, limit ≤ 0 → searchFilesEffectiveLimit limit = 10) ∧
    (∀ (q : List ℝ) (s : VectorStore) (limit : ℤ),
      ((collectScores q s).length : ℤ) ≤ limit →
      (search q s limit).length = (collectScores q s).length) ∧
    (∀ (q : List ℝ) (s : VectorStore), search q s 0 = []) := by
  refine ⟨?_, ?_, ?_⟩
  · intro limit h
    rw [searchFilesEffectiveLimit, if_pos h]
  · intro q s limit h
    simp only [search, List.length_map, List.length_take, sortByScore,
      List.length_insertionSort]
    by_cases hc : ((collectScores q s).length : ℤ) < limit
    · rw [if_pos hc]
      omega
    · rw [if_neg hc]
      omega
  · intro q s
    simp only [search]
    rw [if_neg (by omega)]
    simp

/-- Witness for `C6_limit_semantics`: a negative limit is defaulted to 10 by
the caller, and a limit of 7 on the (chunk-free) fresh store returns all 0
scored chunks. -/
theorem C6_limit_semantics_witness :
    searchFilesEffectiveLimit (-3) = 10 ∧
    (search [] freshStore 7).length = (collectScores [] freshStore).length :=
  ⟨C6_limit_semantics.1 (-3) (by decide),
    C6_limit_semantics.2.1 [] freshStore 7 (by norm_num [collectScores, freshStore])⟩

end Codecli
